import Mathlib

/-!
# Verification of the HTML2MD orchestration tool (`html2md.py`)

This file gives a shallow embedding, in Lean 4, of the parts of `html2md.py`
that the specification's testable properties talk about:

* `Config.get`-style dotted-key lookup over a JSON-like document;
* `HTMLProcessor.clean_filename` (title derivation from a filename);
* `GeminiAPIClient.convert_html_to_markdown` / `_make_api_call`
  (retry loop with exponential backoff and the 429 retry-delay special case),
  modelled as a trace of call-start and sleep events;
* `HTML2MDConverter.discover_html_files`, `check_output_file`,
  `convert_directory` and `generate_output` (discovery, the overwrite prompt,
  completion-order collection, title-keyed reordering, output rendering,
  found/processed counts);
* the CLI `--concurrent` override applied in `main`.

Concurrency is modelled by making the nondeterministic completion order of
`asyncio.as_completed` an explicit parameter (a list of the successfully
converted files in completion order), and by recording the retry loop's
blocking operations (API-call starts and sleeps) as an explicit event trace.
Machine floats in the source (`retry_delay_base`, mtimes) are modelled as
exact rationals / integers.
-/

namespace HTML2MD

/-! ## Characters and small string utilities

Python string operations used by the source are modelled on `List Char`.
`Char.ofNat 39` is the apostrophe, `Char.ofNat 34` the double quote,
`Char.ofNat 92` the backslash.
-/

/-- The apostrophe character (U+0027). -/
def apos : Char := Char.ofNat 39

/-- Does the first list occur as a leading run of the second?  Models
Python's `str.startswith` on a suffix of the haystack. -/
def startsWithList : List Char → List Char → Bool
  | _, [] => true
  | [], _ :: _ => false
  | h :: hs, n :: ns => h = n && startsWithList hs ns

/-- Does `needle` occur contiguously anywhere in the haystack?  Models
Python's `in` operator on strings. -/
def containsSub (needle : List Char) : List Char → Bool
  | [] => startsWithList [] needle
  | c :: rest => startsWithList (c :: rest) needle || containsSub needle rest

/-- ASCII decimal digit test; models the character class matched by `\d`
in the source's regular expressions (restricted to ASCII, which is all the
Gemini error strings contain). -/
def isDigitChar (c : Char) : Bool := decide ('0' ≤ c) && decide (c ≤ '9')

/-- Numeric value of a run of decimal digits; models `int(...)` applied to
the digits captured by a regular expression. -/
def digitsToNat (ds : List Char) : Nat := ds.foldl (fun n c => n * 10 + (c.toNat - 48)) 0

/-- The whitespace characters collapsed by `re.sub(r'\s+', ' ', name)` and
stripped by `str.strip()`: ASCII whitespace plus NEL and NBSP.  (Python's
`\s` covers further rare Unicode space characters; the filenames examined
below contain none of them.) -/
def pySpaceChars : List Char :=
  [' ', Char.ofNat 9, Char.ofNat 10, Char.ofNat 11, Char.ofNat 12, Char.ofNat 13,
   Char.ofNat 133, Char.ofNat 160]

/-- Whitespace test for the model of `\s` / `str.strip()`. -/
def isPySpace (c : Char) : Bool := pySpaceChars.contains c

/-- `l.dropWhile` from both ends: models Python's `str.strip()`. -/
def pyStripChars (l : List Char) : List Char :=
  ((l.dropWhile isPySpace).reverse.dropWhile isPySpace).reverse

/-- Model of Python's `str.strip()`. -/
def pyStrip (s : String) : String := String.mk (pyStripChars s.data)

/-- One pass of `re.sub(r'\s+', ' ', ...)`: every maximal run of whitespace
becomes a single space.  The boolean records whether the previous character
belonged to a whitespace run. -/
def collapseGo : Bool → List Char → List Char
  | _, [] => []
  | prevSpace, c :: rest =>
    if isPySpace c then
      (if prevSpace then [] else [' ']) ++ collapseGo true rest
    else c :: collapseGo false rest

/-- Index of the last occurrence of `c`, if any; models `str.rfind`. -/
def lastIndexOf (c : Char) : List Char → Option Nat
  | [] => none
  | x :: xs =>
    match lastIndexOf c xs with
    | some i => some (i + 1)
    | none => if x = c then some 0 else none

/-- Model of `pathlib.PurePath.stem` on a path component: drop the last
extension when the final dot is neither the first nor the last character.
The source only ever applies it to basenames (`Path(file_path).name`). -/
def pathStem (s : String) : String :=
  match lastIndexOf '.' s.data with
  | some i => if 0 < i ∧ i + 1 < s.data.length then String.mk (s.data.take i) else s
  | none => s

/-- Model of `pathlib.PurePath.name` on the simple slash-separated paths the
tool builds: the characters after the last slash. -/
def pathName (p : String) : String :=
  String.mk (p.data.foldl (fun acc c => if c = '/' then [] else acc ++ [c]) [])

/-- Model of `os.path.dirname` on simple paths: the characters before the
last slash, or the empty string when there is no slash. -/
def dirName (p : String) : String :=
  match (p.data.reverse.dropWhile (fun c => !(c = '/'))) with
  | [] => ""
  | _ :: rest => String.mk rest.reverse

/-! ## HTML entity decoding (`html.unescape`)

The source decodes HTML entities in filenames with `html.unescape`.  The
model below covers decimal and hexadecimal character references and the
common named entities; on ampersand-free strings (which includes every
filename examined by the theorems in this file) it agrees with the library
function, both being the identity there. -/

/-- Named entities recognised by the model of `html.unescape` (a subset of
the library's table; the library also accepts some names without the
trailing semicolon, which the model does not). -/
def namedEntities : List (List Char × Char) :=
  [("amp".data, '&'), ("lt".data, '<'), ("gt".data, '>'),
   ("quot".data, Char.ofNat 34), ("apos".data, apos), ("nbsp".data, Char.ofNat 160)]

/-- Try to read `name;` for one of the known named entities. -/
def tryNamed (l : List Char) : List (List Char × Char) → Option (Char × List Char)
  | [] => none
  | (name, c) :: rest =>
    if startsWithList l (name ++ [';']) then some (c, l.drop (name.length + 1))
    else tryNamed l rest

/-- ASCII hexadecimal digit test. -/
def isHexChar (c : Char) : Bool :=
  isDigitChar c || (decide ('a' ≤ c) && decide (c ≤ 'f')) || (decide ('A' ≤ c) && decide (c ≤ 'F'))

/-- Numeric value of one hexadecimal digit. -/
def hexVal (c : Char) : Nat :=
  if isDigitChar c then c.toNat - 48
  else if decide ('a' ≤ c) && decide (c ≤ 'f') then c.toNat - 87
  else c.toNat - 55

/-- Numeric value of a run of hexadecimal digits. -/
def hexToNat (ds : List Char) : Nat := ds.foldl (fun n c => n * 16 + hexVal c) 0

/-- Try to read one character reference after an ampersand: `#ddd`, `#xhh`
(semicolon optional, as in the library's regular expression) or a named
entity.  Returns the decoded character and the remaining input.  Code
points outside `Char`'s range decode to the null character (the library
substitutes U+FFFD there; no theorem below depends on this corner). -/
def tryReference (rest : List Char) : Option (Char × List Char) :=
  match rest with
  | '#' :: more =>
    match more with
    | c :: more2 =>
      if c = 'x' ∨ c = 'X' then
        let ds := more2.takeWhile isHexChar
        if ds.isEmpty then none
        else
          let rem := more2.drop ds.length
          let rem2 := if startsWithList rem [';'] then rem.drop 1 else rem
          some (Char.ofNat (hexToNat ds), rem2)
      else
        let ds := more.takeWhile isDigitChar
        if ds.isEmpty then none
        else
          let rem := more.drop ds.length
          let rem2 := if startsWithList rem [';'] then rem.drop 1 else rem
          some (Char.ofNat (digitsToNat ds), rem2)
    | [] => none
  | _ => tryNamed rest namedEntities

/-- Fuelled scanner for `html.unescape`; each step consumes at least one
input character, so the input length is enough fuel. -/
def unescapeGo : Nat → List Char → List Char
  | 0, l => l
  | _ + 1, [] => []
  | fuel + 1, c :: rest =>
    if c = '&' then
      match tryReference rest with
      | some (d, remaining) => d :: unescapeGo fuel remaining
      | none => c :: unescapeGo fuel rest
    else c :: unescapeGo fuel rest

/-- Model of `html.unescape` (see the section comment above). -/
def htmlUnescape (s : String) : String := String.mk (unescapeGo s.data.length s.data)

/-! ## `HTMLProcessor.clean_filename` -/

/-- The characters removed by the removal stage of `clean_filename`
(the source's character class of filesystem-unsafe characters). -/
def specialChars : List Char :=
  ['<', '>', ':', Char.ofNat 34, '/', Char.ofNat 92, '|', '?', '*']

/-- The removal stage of `clean_filename`. -/
def removeSpecial (s : String) : String :=
  String.mk (s.data.filter (fun c => !(specialChars.contains c)))

/-- Model of `HTMLProcessor.clean_filename`: stem, underscores to spaces,
HTML-entity decoding, removal of the special characters, whitespace
collapsing and stripping. -/
def clean_filename (filename : String) : String :=
  let n1 := pathStem filename
  let n2 := String.mk (n1.data.map (fun c => if c = '_' then ' ' else c))
  let n3 := htmlUnescape n2
  let n4 := removeSpecial n3
  String.mk (pyStripChars (collapseGo false n4.data))

/-! ## Configuration (`Config`) and the CLI override in `main` -/

/-- JSON-like values, as produced by `json.load` in `Config._load_config`.
Numeric leaves are modelled as integers; the float-valued configuration
entries play no role in the configuration claims. -/
inductive JValue where
  | null
  | bool (b : Bool)
  | num (n : Int)
  | str (s : String)
  | arr (xs : List JValue)
  | obj (fields : List (String × JValue))

/-- First-match association lookup; models `k in d` / `d[k]` on the
unique-keyed dictionaries `json.load` produces. -/
def jLookup : List (String × JValue) → String → Option JValue
  | [], _ => none
  | (k, v) :: rest, key => if k = key then some v else jLookup rest key

/-- The loop body of `Config.get`: walk the remaining key segments, and
return the default as soon as the current value is not a dictionary holding
the next segment. -/
def getGo (default : JValue) : List String → JValue → JValue
  | [], v => v
  | k :: ks, JValue.obj fields =>
    match jLookup fields k with
    | some v2 => getGo default ks v2
    | none => default
  | _ :: _, JValue.null => default
  | _ :: _, JValue.bool _ => default
  | _ :: _, JValue.num _ => default
  | _ :: _, JValue.str _ => default
  | _ :: _, JValue.arr _ => default

/-- The splitting loop for `key.split('.')`: characters accumulated since
the last dot, in reverse. -/
def splitDotGo : List Char → List Char → List String
  | [], acc => [String.mk acc.reverse]
  | c :: rest, acc =>
    if c = '.' then String.mk acc.reverse :: splitDotGo rest []
    else splitDotGo rest (c :: acc)

/-- Model of Python's `key.split('.')`: the dot-separated segments, with
empty segments kept (so the empty key yields one empty segment). -/
def splitDot (s : String) : List String := splitDotGo s.data []

/-- Model of `Config.get`: split the key on dots and traverse. -/
def configGet (config : JValue) (key : String) (default : JValue) : JValue :=
  getGo default (splitDot key) config

/-- Specification-side traversal: the value reached by following the
segments through nested mappings, if every step succeeds. -/
def traverse : JValue → List String → Option JValue
  | v, [] => some v
  | JValue.obj fields, k :: ks =>
    match jLookup fields k with
    | some v2 => traverse v2 ks
    | none => none
  | JValue.null, _ :: _ => none
  | JValue.bool _, _ :: _ => none
  | JValue.num _, _ :: _ => none
  | JValue.str _, _ :: _ => none
  | JValue.arr _, _ :: _ => none

/-- Python dictionary assignment `d[k] = v`: overwrite an existing key in
place, otherwise append. -/
def setKey : List (String × JValue) → String → JValue → List (String × JValue)
  | [], key, v => [(key, v)]
  | (k, w) :: rest, key, v =>
    if k = key then (k, v) :: rest else (k, w) :: setKey rest key v

/-- The Python exceptions the override step can raise. -/
inductive PyError where
  | keyError (k : String)
  | typeError
deriving DecidableEq, Repr

/-- Model of the CLI override in `main`:
`if args.concurrent: config.config['processing']['max_concurrent'] = args.concurrent`.
`none` models an absent `--concurrent` flag; `some 0` is falsy in Python, so
the assignment is skipped.  Subscripting a dictionary without the key raises
`KeyError`; subscript-assignment on a non-dictionary raises `TypeError`. -/
def applyConcurrentOverride (conf : JValue) (concurrent : Option Int) : Except PyError JValue :=
  match concurrent with
  | none => Except.ok conf
  | some c =>
    if c = 0 then Except.ok conf
    else
      match conf with
      | JValue.obj fields =>
        match jLookup fields "processing" with
        | none => Except.error (PyError.keyError "processing")
        | some (JValue.obj pf) =>
          Except.ok (JValue.obj (setKey fields "processing"
            (JValue.obj (setKey pf "max_concurrent" (JValue.num c)))))
        | some _ => Except.error PyError.typeError
      | _ => Except.error PyError.typeError

/-! ## Remote conversion client (`GeminiAPIClient`)

`convert_html_to_markdown` acquires the shared rate limiter once, then runs
`for attempt in range(max_retries)`, calling `_make_api_call` each
iteration.  The outcome of each attempt (the behaviour of the remote
service) is an explicit parameter `outcomes : Nat → CallOutcome`.  The
blocking behaviour is recorded as a trace of events; an `Except` value
models normal return versus a propagated exception. -/

/-- Outcome of one underlying `generate_content` call. -/
inductive CallOutcome where
  | success (text : String)
  | failure (err : String)

/-- Observable events of the client: acquiring the rate limiter, starting
an API call, and sleeping for a duration (seconds, exact rationals). -/
inductive Event where
  | acquire
  | callStart
  | sleep (d : ℚ)
deriving DecidableEq, Repr

/-- The literal characters of the retry-delay pattern searched by
`re.search` in `_make_api_call`: an apostrophe, `retryDelay`, an
apostrophe, a colon, a space and an apostrophe. -/
def delayKeyPat : List Char := apos :: ("retryDelay".data ++ [apos, ':', ' ', apos])

/-- Try to match the retry-delay pattern at the head of the input: the
literal key, one or more digits, then `s` and a closing apostrophe.
Returns the number of seconds. -/
def matchDelayAt (l : List Char) : Option Nat :=
  if startsWithList l delayKeyPat then
    let rest := l.drop delayKeyPat.length
    let ds := rest.takeWhile isDigitChar
    if ds.isEmpty then none
    else if startsWithList (rest.drop ds.length) ['s', apos] then some (digitsToNat ds)
    else none
  else none

/-- Leftmost match of the retry-delay pattern; models `re.search`. -/
def scanDelay : List Char → Option Nat
  | [] => none
  | c :: rest =>
    match matchDelayAt (c :: rest) with
    | some n => some n
    | none => scanDelay rest

/-- The server-suggested retry delay `_make_api_call` extracts from an error
string: present only when the string contains `429` and
`RESOURCE_EXHAUSTED` and the retry-delay pattern matches. -/
def suggestedDelay (e : String) : Option Nat :=
  if containsSub "429".data e.data && containsSub "RESOURCE_EXHAUSTED".data e.data
  then scanDelay e.data
  else none

/-- Model of `_make_api_call`: start the call; on success return its text;
on failure sleep the suggested retry delay when one is found, then re-raise
the exception. -/
def make_api_call (outcome : CallOutcome) : List Event × Except String String :=
  match outcome with
  | CallOutcome.success t => ([Event.callStart], Except.ok t)
  | CallOutcome.failure e =>
    match suggestedDelay e with
    | some d => ([Event.callStart, Event.sleep (d : ℚ)], Except.error e)
    | none => ([Event.callStart], Except.error e)

/-- The retry loop of `convert_html_to_markdown`, with `fuel` iterations of
`range(max_retries)` remaining and `attempt` the current loop index:
on failure, sleep `base * 2 ^ attempt` and continue unless this was the
last iteration, in which case the exception propagates. -/
def convertGo (outcomes : Nat → CallOutcome) (maxRetries : Nat) (base : ℚ) :
    Nat → Nat → List Event × Except String String
  | _, 0 => ([], Except.error "")
  | attempt, fuel + 1 =>
    let r := make_api_call (outcomes attempt)
    match r.2 with
    | Except.ok t => (r.1, Except.ok t)
    | Except.error e =>
      if attempt < maxRetries - 1 then
        let rest := convertGo outcomes maxRetries base (attempt + 1) fuel
        (r.1 ++ [Event.sleep (base * 2 ^ attempt)] ++ rest.1, rest.2)
      else (r.1, Except.error e)

/-- Model of `convert_html_to_markdown`: acquire the rate limiter once
(`async with self.rate_limiter`), then run the retry loop.  The theorems
below always take `1 ≤ maxRetries` (with `max_retries = 0` the Python loop
body never runs and the function falls through; that degenerate
configuration is not modelled further). -/
def convert_html_to_markdown (outcomes : Nat → CallOutcome) (maxRetries : Nat)
    (base : ℚ) : List Event × Except String String :=
  let r := convertGo outcomes maxRetries base 0 maxRetries
  (Event.acquire :: r.1, r.2)

/-- The sleep durations of a trace, in order. -/
def sleepsOf (evs : List Event) : List ℚ :=
  evs.filterMap (fun e => match e with | Event.sleep d => some d | _ => none)

/-- The number of API calls started in a trace. -/
def callCount (evs : List Event) : Nat :=
  (evs.filter (fun e => match e with | Event.callStart => true | _ => false)).length

/-- Absolute start times of the API calls in a trace beginning at time `t`:
sleeps advance the clock; acquiring the (initially empty) limiter is
immediate. -/
def callTimes (t : ℚ) : List Event → List ℚ
  | [] => []
  | Event.callStart :: rest => t :: callTimes t rest
  | Event.sleep d :: rest => callTimes (t + d) rest
  | Event.acquire :: rest => callTimes t rest

/-- How many of the given instants fall in the rolling window
`[t0, t0 + 60)`. -/
def countWindow (times : List ℚ) (t0 : ℚ) : Nat :=
  (times.filter (fun t => decide (t0 ≤ t) && decide (t < t0 + 60))).length

/-- The expected event trace of a run of the retry loop in which every
remaining attempt fails with no suggested delay: a call start, then the
backoff sleep for that attempt, repeated, ending with the final call. -/
def failTrace (b : ℚ) : Nat → Nat → List Event
  | _, 0 => []
  | _, 1 => [Event.callStart]
  | attempt, fuel + 2 =>
    Event.callStart :: Event.sleep (b * 2 ^ attempt) :: failTrace b (attempt + 1) (fuel + 1)

/-! ## Orchestrator (`HTML2MDConverter`) -/

/-- A discovered input file: path and modification time captured at
discovery (seconds; exact integers suffice for the theorems). -/
structure FileEntry where
  path : String
  mtime : Int
deriving DecidableEq, Repr

/-- Stable insertion of a file into a list sorted by ascending mtime;
a tie keeps the earlier element first. -/
def insertByMtime (f : FileEntry) : List FileEntry → List FileEntry
  | [] => [f]
  | g :: rest => if g.mtime ≤ f.mtime then g :: insertByMtime f rest else f :: g :: rest

/-- Model of `discover_html_files`: the `*.html` files found in the
directory (the raw listing, in arbitrary filesystem order) sorted stably by
ascending modification time, as `html_files.sort(key=lambda x: x[1])`
does. -/
def discover_html_files (raw : List FileEntry) : List FileEntry :=
  raw.foldl (fun acc f => insertByMtime f acc) []

/-- The derived title of a file: `clean_filename(Path(file_path).name)`,
exactly as computed at both use sites in the source. -/
def dTitle (f : FileEntry) : String := clean_filename (pathName f.path)

/-- The `processed_files` list built by the collection loop: one
`(clean_filename, markdown_content)` pair per successfully converted file,
in completion order.  `content` gives the markdown the API returned for
each path. -/
def processedOf (content : String → String) (l : List FileEntry) : List (String × String) :=
  l.map (fun f => (dTitle f, content f.path))

/-- Lookup in the dictionary `{result[0]: result for result in processed_files}`:
a dictionary comprehension keeps the last entry for a repeated key. -/
def lastAssoc (k : String) : List (String × String) → Option (String × String)
  | [] => none
  | (t, c) :: rest =>
    match lastAssoc k rest with
    | some r => some r
    | none => if t = k then some (t, c) else none

/-- The reorder step of `convert_directory`: walk the discovered files in
discovery order and keep the dictionary entry for each file's derived
title, when present. -/
def reorder (files : List FileEntry) (processed : List (String × String)) :
    List (String × String) :=
  files.filterMap (fun f => lastAssoc (dTitle f) processed)

/-- One section of the output document: optional header line, stripped
body, trailing blank line. -/
def render1 (add_headers : Bool) (r : String × String) : String :=
  (if add_headers then "# " ++ r.1 ++ "\n\n" else "") ++ pyStrip r.2 ++ "\n\n"

/-- Model of `generate_output`: render the ordered results, placing the
separator (plus blank line) between sections but not after the last. -/
def generate_output : List (String × String) → String → Bool → String
  | [], _, _ => ""
  | [r], _, ah => render1 ah r
  | r :: rest, sep, ah => render1 ah r ++ sep ++ "\n\n" ++ generate_output rest sep ah

/-- Model of `os.path.join` on the simple relative paths the tool builds. -/
def joinPath (dir name : String) : String :=
  if dir = "" then name
  else if startsWithList dir.data.reverse ['/'] then dir ++ name
  else dir ++ "/" ++ name

/-- The timestamp-suffixed alternate output path offered by choice 2 of the
overwrite prompt. -/
def tsName (outputPath : String) (ts : Nat) : String :=
  joinPath (dirName outputPath) (pathStem (pathName outputPath) ++ "_" ++ toString ts ++ ".md")

/-- The interactive loop of `check_output_file` over the stream of user
inputs.  The outer `Option` is `none` when the input stream is exhausted
(`input()` would raise `EOFError`, which propagates out of the run); the
inner `Option` is `none` exactly when the user chose 3 (cancel). -/
def promptLoop (outputPath : String) (ts : Nat) : List String → Option (Option String)
  | [] => none
  | choice :: rest =>
    let c := pyStrip choice
    if c = "1" then some (some outputPath)
    else if c = "2" then some (some (tsName outputPath ts))
    else if c = "3" then some none
    else promptLoop outputPath ts rest

/-- Model of `check_output_file`: when the output path does not already
exist it is returned unchanged without prompting; otherwise the user is
prompted until a valid choice arrives. -/
def check_output_file (exists_flag : Bool) (outputPath : String) (ts : Nat)
    (inputs : List String) : Option (Option String) :=
  if exists_flag then promptLoop outputPath ts inputs else some (some outputPath)

/-- How a run of `convert_directory` ends. -/
inductive DirOutcome where
  | noFiles
  | cancelled
  | inputExhausted
  | finished (outputPath : String) (outputText : String) (found processed : Nat)
deriving DecidableEq, Repr

/-- Model of `convert_directory`.  `raw` is the filesystem listing,
`completed` the successfully converted files in the (nondeterministic)
order `asyncio.as_completed` yielded them — a failed file never appears in
it, and its exception is caught and logged without stopping the loop.
The reported counts are `len(html_files)` (found) and
`len(ordered_results)` (processed). -/
def convert_directory_model (raw : List FileEntry) (outDir outName : String)
    (outputExists : Bool) (ts : Nat) (inputs : List String)
    (completed : List FileEntry) (content : String → String)
    (sep : String) (headers : Bool) : DirOutcome :=
  match discover_html_files raw with
  | [] => DirOutcome.noFiles
  | f :: fs =>
    let files := f :: fs
    match check_output_file outputExists (joinPath outDir outName) ts inputs with
    | none => DirOutcome.inputExhausted
    | some none => DirOutcome.cancelled
    | some (some path) =>
      let ordered := reorder files (processedOf content completed)
      DirOutcome.finished path (generate_output ordered sep headers)
        files.length ordered.length

/-- The process exit code as a function of how the run ended: a propagated
exception is caught in `main` and turns into `sys.exit(1)`; every other
ending falls out of `main` normally, so the process exits 0. -/
def main_exit_code (outcome : DirOutcome) : Nat :=
  match outcome with
  | DirOutcome.inputExhausted => 1
  | _ => 0

/-- The override-then-run sequencing of `main`: the CLI override is applied
before the converter is even constructed, so an exception there prevents
any conversion work. -/
def mainOverrideThenRun (conf : JValue) (concurrent : Option Int)
    (run : JValue → DirOutcome) : Except PyError DirOutcome :=
  match applyConcurrentOverride conf concurrent with
  | Except.error e => Except.error e
  | Except.ok conf2 => Except.ok (run conf2)

/-! ## Concrete instances used by witnesses and counterexamples -/

/-- An error string that matches none of the rate-limit markers. -/
def ocFail : Nat → CallOutcome := fun _ => CallOutcome.failure "boom"

/-- A Gemini 429 error string carrying the server-suggested delay
`retryDelay: 7s` (with the quoting `_make_api_call`'s pattern expects). -/
def e429 : String := String.mk ("429 RESOURCE_EXHAUSTED ".data ++ delayKeyPat ++ ['7', 's', apos])

/-- Attempt outcomes: a rate-limited first attempt, then success. -/
def oc42 : Nat → CallOutcome :=
  fun i => if i = 0 then CallOutcome.failure e429 else CallOutcome.success "OK"

/-- A configuration document with `processing.rate_limit_per_minute = 1`. -/
def cfgRate1 : JValue :=
  JValue.obj [("processing", JValue.obj [("rate_limit_per_minute", JValue.num 1)])]

/-- Every conversion succeeds. -/
def okAll : FileEntry → Bool := fun _ => true

/-- Three files listed out of mtime order (t3, t1, t2 in the directory
listing); discovery sorts them to t1 < t2 < t3. -/
def rawC1 : List FileEntry := [⟨"c.html", 3⟩, ⟨"a.html", 1⟩, ⟨"b.html", 2⟩]

/-- A distinct markdown body per source path. -/
def contentC1 : String → String := fun p => p ++ " md"

/-- Two distinct files whose derived titles collide: underscores become
spaces, so both clean to `a b`. -/
def fColl1 : FileEntry := ⟨"a_b.html", 1⟩

/-- See `fColl1`. -/
def fColl2 : FileEntry := ⟨"a b.html", 2⟩

/-- Distinct markdown bodies for the two colliding files. -/
def contentColl : String → String := fun p => if p = "a_b.html" then "X" else "Y"

/-- Two collision-free files. -/
def rawC2 : List FileEntry := [⟨"x.html", 1⟩, ⟨"y.html", 2⟩]

/-- Only `y.html` converts successfully. -/
def okC6 : FileEntry → Bool := fun f => f.path = "y.html"

/-- A directory with one file, for the overwrite-prompt run. -/
def rawC9 : List FileEntry := [⟨"doc.html", 5⟩]

/-! ## Supporting lemmas -/

theorem getGo_getD : ∀ (ks : List String) (v default : JValue), getGo default ks v = (traverse v ks).getD default := by
intro ks
induction ks with
| nil => intro v d; cases v <;> rfl
| cons k ks ih =>
  intro v d
  cases v with
  | obj fields =>
    simp only [getGo, traverse]
    cases h : jLookup fields k with
    | some v2 => simp [h, ih]
    | none => simp [h]
  | null => rfl
  | bool b => rfl
  | num n => rfl
  | str s => rfl
  | arr xs => rfl

theorem mem_pyStripChars {c : Char} {l : List Char} (h : c ∈ pyStripChars l) : c ∈ l := by
unfold pyStripChars at h
rw [List.mem_reverse] at h
have h2 := (List.dropWhile_sublist isPySpace).subset h
rw [List.mem_reverse] at h2
exact (List.dropWhile_sublist isPySpace).subset h2

theorem mem_collapseGo {c : Char} : ∀ (l : List Char) (b : Bool), c ∈ collapseGo b l → c ∈ l ∨ c = ' ' := by
intro l
induction l with
| nil => intro b h; simp [collapseGo] at h
| cons d rest ih =>
  intro b h
  simp only [collapseGo] at h
  by_cases hd : isPySpace d
  · rw [if_pos hd] at h
    rcases List.mem_append.mp h with h1 | h2
    · right
      cases b
      · simpa using h1
      · simp at h1
    · rcases ih true h2 with h3 | h3
      · exact Or.inl (List.mem_cons_of_mem d h3)
      · exact Or.inr h3
  · rw [if_neg hd] at h
    rcases List.mem_cons.mp h with h1 | h2
    · exact Or.inl (h1 ▸ List.mem_cons_self d rest)
    · rcases ih false h2 with h3 | h3
      · exact Or.inl (List.mem_cons_of_mem d h3)
      · exact Or.inr h3

theorem not_mem_removeSpecial {c : Char} (hc : c ∈ specialChars) (s : String) :
    c ∉ (removeSpecial s).data := by
intro h
have hp := List.of_mem_filter h
have h3 : specialChars.contains c = true := List.elem_iff.mpr hc
simp [h3] at hp
exact hp hc

/-! ## Claim C7: `Config.get` -/

/-- Claim C7: for every configuration document, dotted key and default,
`Config.get` traverses the nested mappings segment by segment and returns
the reached value, and returns the caller-supplied default whenever any
segment is missing or an intermediate value is not a mapping — in
particular for every key absent from the file.  Being a total Lean
function, the model also shows the operation never raises. -/
theorem configGet_traverses (config : JValue) (key : String) (default : JValue) :
    configGet config key default = (traverse config (splitDot key)).getD default :=
getGo_getD (splitDot key) config default

/-! ## Claim C10: the `--concurrent` override in `main` -/

/-- Claim C10: when the loaded configuration has no top-level `processing`
mapping, a nonzero `--concurrent` value makes the override step in `main`
raise `KeyError` before any conversion work begins (the run function is
never invoked), while `--concurrent 0` is falsy and leaves the
configuration unchanged. -/
theorem concurrent_override_keyerror (fields : List (String × JValue)) (c : Int)
    (run : JValue → DirOutcome)
    (hmiss : jLookup fields "processing" = none) (hc : c ≠ 0) :
    mainOverrideThenRun (JValue.obj fields) (some c) run
        = Except.error (PyError.keyError "processing")
    ∧ mainOverrideThenRun (JValue.obj fields) (some 0) run
        = Except.ok (run (JValue.obj fields)) := by
constructor
· simp [mainOverrideThenRun, applyConcurrentOverride, hc, hmiss]
· simp [mainOverrideThenRun, applyConcurrentOverride]

/-- Witness for C10, at a configuration whose only top-level key is
`gemini` and with `--concurrent 5`. -/
theorem concurrent_override_keyerror_witness :
    mainOverrideThenRun (JValue.obj [("gemini", JValue.obj [])]) (some 5)
        (fun _ => DirOutcome.noFiles) = Except.error (PyError.keyError "processing")
    ∧ mainOverrideThenRun (JValue.obj [("gemini", JValue.obj [])]) (some 0)
        (fun _ => DirOutcome.noFiles)
        = Except.ok ((fun _ => DirOutcome.noFiles) (JValue.obj [("gemini", JValue.obj [])])) :=
concurrent_override_keyerror [("gemini", JValue.obj [])] 5 (fun _ => DirOutcome.noFiles)
  rfl (by decide)

/-! ## Claim C3: `clean_filename` -/

/-- Counterexample for C3 as stated: the removal stage deletes the unsafe
characters rather than replacing them with spaces, so
`clean_filename "My:File?.html"` is `"MyFile"`, not `"My File"`. -/
theorem clean_filename_example_counterexample :
    clean_filename "My:File?.html" = "MyFile"
    ∧ clean_filename "My:File?.html" ≠ "My File" := by
constructor
· rfl
· decide

/-- Claim C3 (amended): `clean_filename` strips exactly the unsafe
character class — those characters never survive into the result, and the
removal stage deletes precisely them, leaving any other character alone —
it is idempotent on already-clean names, and
`clean_filename "My:File?.html"` equals `"MyFile"` (the stripped
characters are deleted, not replaced by spaces). -/
theorem clean_filename_spec :
    (∀ n : String, clean_filename n = n → clean_filename (clean_filename n) = clean_filename n)
    ∧ (∀ (n : String) (c : Char), c ∈ specialChars → c ∉ (clean_filename n).data)
    ∧ (∀ c : Char, removeSpecial (String.mk [c])
        = if c ∈ specialChars then String.mk [] else String.mk [c])
    ∧ clean_filename "My:File?.html" = "MyFile" := by
refine ⟨?_, ?_, ?_, rfl⟩
· intro n h
  rw [h]
  exact h
· intro n c hc h
  have h1 := mem_pyStripChars h
  rcases mem_collapseGo _ _ h1 with h2 | h2
  · exact not_mem_removeSpecial hc _ h2
  · exact absurd (h2 ▸ hc) (by decide)
· intro c
  by_cases h : c ∈ specialChars
  · have h3 : specialChars.contains c = true := List.elem_iff.mpr h
    simp [removeSpecial, List.filter_cons, h3, h]
  · have h3 : specialChars.contains c = false := by
      cases hb : specialChars.contains c
      · rfl
      · exact absurd (List.elem_iff.mp hb) h
    simp [removeSpecial, List.filter_cons, h3, h]

/-- Witness for C3 (amended): idempotence at the already-clean name
`"My File"`, absence of the colon from a cleaned name, exact stripping at
a stripped and at a kept character. -/
theorem clean_filename_spec_witness :
    clean_filename (clean_filename "My File") = clean_filename "My File"
    ∧ ':' ∉ (clean_filename "a:b.html").data
    ∧ removeSpecial (String.mk ['*'])
        = (if '*' ∈ specialChars then String.mk [] else String.mk ['*'])
    ∧ removeSpecial (String.mk ['a'])
        = (if 'a' ∈ specialChars then String.mk [] else String.mk ['a']) :=
⟨clean_filename_spec.1 "My File" (by decide),
 clean_filename_spec.2.1 "a:b.html" ':' (by decide),
 clean_filename_spec.2.2.1 '*',
 clean_filename_spec.2.2.1 'a'⟩

/-! ## Lemmas about the retry loop -/

theorem convertGo_succ (outcomes : Nat → CallOutcome) (m : Nat) (b : ℚ) (attempt fuel : Nat) :
    convertGo outcomes m b attempt (fuel + 1)
      = match (make_api_call (outcomes attempt)).2 with
        | Except.ok t => ((make_api_call (outcomes attempt)).1, Except.ok t)
        | Except.error e =>
          if attempt < m - 1 then
            ((make_api_call (outcomes attempt)).1 ++ [Event.sleep (b * 2 ^ attempt)]
              ++ (convertGo outcomes m b (attempt + 1) fuel).1,
             (convertGo outcomes m b (attempt + 1) fuel).2)
          else ((make_api_call (outcomes attempt)).1, Except.error e) := rfl

theorem convertGo_fail (outcomes : Nat → CallOutcome) (m : Nat) (b : ℚ) (errs : Nat → String)
    (hout : ∀ i, i < m → outcomes i = CallOutcome.failure (errs i))
    (hnd : ∀ i, i < m → suggestedDelay (errs i) = none) :
    ∀ fuel attempt, attempt + fuel = m → 1 ≤ fuel →
    convertGo outcomes m b attempt fuel = (failTrace b attempt fuel, Except.error (errs (m - 1))) := by
intro fuel
induction fuel with
| zero => intro attempt _ h1; omega
| succ f ih =>
  intro attempt hsum _
  cases f with
  | zero =>
    have ho := hout attempt (by omega)
    have hn := hnd attempt (by omega)
    have hlt : ¬ attempt < m - 1 := by omega
    have ha : attempt = m - 1 := by omega
    subst ha
    rw [convertGo_succ, ho]
    simp only [make_api_call, hn]
    rw [if_neg hlt]
    simp [failTrace]
  | succ g =>
    have ho := hout attempt (by omega)
    have hn := hnd attempt (by omega)
    have hlt : attempt < m - 1 := by omega
    have hrec := ih (attempt + 1) (by omega) (by omega)
    rw [convertGo_succ, ho]
    simp only [make_api_call, hn]
    rw [if_pos hlt, hrec]
    simp [failTrace]

theorem callCount_cons_callStart (evs : List Event) :
    callCount (Event.callStart :: evs) = callCount evs + 1 := by
simp [callCount, List.filter_cons]

theorem callCount_cons_sleep (d : ℚ) (evs : List Event) :
    callCount (Event.sleep d :: evs) = callCount evs := by
simp [callCount, List.filter_cons]

theorem callCount_failTrace (b : ℚ) :
    ∀ fuel attempt, callCount (failTrace b attempt fuel) = fuel := by
intro fuel
induction fuel with
| zero => intro attempt; rfl
| succ f ih =>
  intro attempt
  cases f with
  | zero => rfl
  | succ g =>
    show callCount (Event.callStart :: Event.sleep (b * 2 ^ attempt)
        :: failTrace b (attempt + 1) (g + 1)) = g + 2
    rw [callCount_cons_callStart, callCount_cons_sleep, ih (attempt + 1)]

theorem sleepsOf_failTrace (b : ℚ) :
    ∀ fuel attempt, sleepsOf (failTrace b attempt fuel)
      = (List.range (fuel - 1)).map (fun i => b * 2 ^ (attempt + i)) := by
intro fuel
induction fuel with
| zero => intro attempt; rfl
| succ f ih =>
  intro attempt
  cases f with
  | zero => rfl
  | succ g =>
    show sleepsOf (Event.callStart :: Event.sleep (b * 2 ^ attempt)
        :: failTrace b (attempt + 1) (g + 1)) = _
    simp only [sleepsOf, List.filterMap_cons]
    rw [show (g + 2 - 1) = g + 1 from rfl, List.range_succ_eq_map]
    simp only [List.map_cons, List.map_map]
    have hrest := ih (attempt + 1)
    simp only [sleepsOf] at hrest
    rw [hrest]
    simp only [Nat.add_zero]
    congr 1
    apply List.map_congr_left
    intro i _
    have : attempt + 1 + i = attempt + Nat.succ i := by omega
    simp [Function.comp, this]

theorem callTimes_failTrace (b : ℚ) :
    ∀ fuel attempt (t : ℚ), callTimes t (failTrace b attempt fuel)
      = (List.range fuel).map (fun i => t + b * (2 ^ (attempt + i) - 2 ^ attempt)) := by
intro fuel
induction fuel with
| zero => intro attempt t; rfl
| succ f ih =>
  intro attempt t
  cases f with
  | zero =>
    show callTimes t [Event.callStart] = _
    simp [callTimes, List.range_succ_eq_map]
  | succ g =>
    show callTimes t (Event.callStart :: Event.sleep (b * 2 ^ attempt)
        :: failTrace b (attempt + 1) (g + 1)) = _
    simp only [callTimes]
    rw [ih (attempt + 1) (t + b * 2 ^ attempt)]
    rw [List.range_succ_eq_map (g + 1)]
    simp only [List.map_cons, List.map_map]
    congr 1
    · simp
    · apply List.map_congr_left
      intro i _
      simp only [Function.comp]
      have he : attempt + 1 + i = attempt + (i + 1) := by omega
      rw [he]
      simp only [pow_add, pow_succ]
      ring

theorem callCount_cons_acquire (evs : List Event) :
    callCount (Event.acquire :: evs) = callCount evs := by
simp [callCount, List.filter_cons]

theorem sleepsOf_cons_acquire (evs : List Event) :
    sleepsOf (Event.acquire :: evs) = sleepsOf evs := by
simp [sleepsOf, List.filterMap_cons]

/-! ## Claim C5: retry count, exponential backoff, propagation -/

/-- Claim C5: when every attempt fails (with no server-suggested delay in
play), `convert_html_to_markdown` makes exactly `maxRetries` API calls
(attempts indexed from 0), sleeps `base * 2 ^ attempt` between consecutive
attempts — the exponential-backoff schedule, with no jitter — and on
exhaustion propagates the last failure to the caller as the conversion
error. -/
theorem retry_exponential_backoff (outcomes : Nat → CallOutcome) (m : Nat) (b : ℚ)
    (errs : Nat → String) (hm : 1 ≤ m)
    (hout : ∀ i, i < m → outcomes i = CallOutcome.failure (errs i))
    (hnd : ∀ i, i < m → suggestedDelay (errs i) = none) :
    (convert_html_to_markdown outcomes m b).2 = Except.error (errs (m - 1))
    ∧ callCount (convert_html_to_markdown outcomes m b).1 = m
    ∧ sleepsOf (convert_html_to_markdown outcomes m b).1
        = (List.range (m - 1)).map (fun i => b * 2 ^ i) := by
have hgo := convertGo_fail outcomes m b errs hout hnd m 0 (by omega) hm
have h1 : (convert_html_to_markdown outcomes m b).1 = Event.acquire :: failTrace b 0 m := by
  simp [convert_html_to_markdown, hgo]
refine ⟨?_, ?_, ?_⟩
· simp [convert_html_to_markdown, hgo]
· rw [h1, callCount_cons_acquire, callCount_failTrace]
· rw [h1, sleepsOf_cons_acquire, sleepsOf_failTrace]
  apply List.map_congr_left
  intro i _
  rw [Nat.zero_add]

/-- Witness for C5: three attempts, base one second, every attempt failing
with a plain error. -/
theorem retry_exponential_backoff_witness :
    (convert_html_to_markdown ocFail 3 1).2 = Except.error "boom"
    ∧ callCount (convert_html_to_markdown ocFail 3 1).1 = 3
    ∧ sleepsOf (convert_html_to_markdown ocFail 3 1).1
        = (List.range 2).map (fun i => 1 * 2 ^ i) :=
retry_exponential_backoff ocFail 3 1 (fun _ => "boom") (by omega)
  (fun _ _ => rfl) (fun _ _ => rfl)

/-! ## Claim C4: the 429 retry-delay special case -/

/-- Counterexample for C4 as stated: with a first attempt failing as a 429
quota error suggesting a 7-second delay and `base = 1`, the client sleeps
7 seconds *and then also* the exponential-backoff second before the next
attempt, so the suggested delay does not replace the backoff sleep (the
sleep sequence is `[7, 1]`, not `[7]`). -/
theorem retry_delay_counterexample :
    (convert_html_to_markdown oc42 2 1).1
      = [Event.acquire, Event.callStart, Event.sleep 7, Event.sleep 1, Event.callStart]
    ∧ sleepsOf (convert_html_to_markdown oc42 2 1).1 ≠ [(7 : ℚ)] := by
have ho0 : oc42 0 = CallOutcome.failure e429 := rfl
have ho1 : oc42 1 = CallOutcome.success "OK" := rfl
have hd : suggestedDelay e429 = some 7 := rfl
have h1 : (convert_html_to_markdown oc42 2 1).1
    = [Event.acquire, Event.callStart, Event.sleep 7, Event.sleep 1, Event.callStart] := by
  simp only [convert_html_to_markdown]
  rw [show (2 : Nat) = 1 + 1 from rfl, convertGo_succ, ho0]
  simp only [make_api_call, hd]
  rw [if_pos (by omega : 0 < 1 + 1 - 1)]
  rw [convertGo_succ, ho1]
  simp only [make_api_call]
  norm_num
refine ⟨h1, ?_⟩
rw [h1]
intro hq
simp only [sleepsOf, List.filterMap_cons, List.filterMap_nil] at hq
have hlen := congrArg List.length hq
simp at hlen

/-- Claim C4 (amended): when an attempt fails with a quota condition
carrying a server-suggested delay `d`, the client sleeps `d` seconds
inside `_make_api_call` before the exception propagates, and the
exponential-backoff sleep `base * 2 ^ attempt` is *additionally* applied
before the next attempt: both delays occur, suggested first. -/
theorem retry_delay_plus_backoff (outcomes : Nat → CallOutcome) (m : Nat) (b : ℚ)
    (e : String) (d : Nat) (hm : 2 ≤ m)
    (h0 : outcomes 0 = CallOutcome.failure e) (hd : suggestedDelay e = some d) :
    (convert_html_to_markdown outcomes m b).1
      = Event.acquire :: Event.callStart :: Event.sleep (d : ℚ)
        :: Event.sleep (b * 2 ^ 0) :: (convertGo outcomes m b 1 (m - 1)).1 := by
obtain ⟨k, rfl⟩ : ∃ k, m = k + 2 := ⟨m - 2, by omega⟩
have hlt : 0 < k + 2 - 1 := by omega
simp only [convert_html_to_markdown]
rw [show (k : Nat) + 2 = (k + 1) + 1 from rfl]
rw [convertGo_succ, h0]
simp only [make_api_call, hd]
rw [if_pos hlt]
simp

/-- Witness for C4 (amended): the concrete 429 scenario of the
counterexample, with the tail of the trace spelled out by the theorem. -/
theorem retry_delay_plus_backoff_witness :
    (convert_html_to_markdown oc42 2 1).1
      = Event.acquire :: Event.callStart :: Event.sleep ((7 : Nat) : ℚ)
        :: Event.sleep (1 * 2 ^ 0) :: (convertGo oc42 2 1 1 (2 - 1)).1 :=
retry_delay_plus_backoff oc42 2 1 e429 7 (by omega) rfl rfl

/-! ## Claim C8: the rolling-window rate bound -/

/-- Counterexample for C8 as stated: with configured rate limit 1 per
minute (read from the configuration exactly as the client does) and three
attempts at base 1 second, a single conversion starts three API calls
inside the rolling window starting at time 0 — the limiter is acquired
once for the whole retry loop, so retry calls are not separately
permitted. -/
theorem rate_window_counterexample :
    configGet cfgRate1 "processing.rate_limit_per_minute" (JValue.num 875) = JValue.num 1
    ∧ countWindow (callTimes 0 (convert_html_to_markdown ocFail 3 1).1) 0 = 3
    ∧ ¬ countWindow (callTimes 0 (convert_html_to_markdown ocFail 3 1).1) 0 ≤ 1 := by
have hgo := convertGo_fail ocFail 3 1 (fun _ => "boom") (fun _ _ => rfl) (fun _ _ => rfl)
  3 0 rfl (by omega)
have h1 : (convert_html_to_markdown ocFail 3 1).1 = Event.acquire :: failTrace 1 0 3 := by
  simp [convert_html_to_markdown, hgo]
have h2 : callTimes 0 (convert_html_to_markdown ocFail 3 1).1 = [0, 1, 3] := by
  rw [h1]
  show callTimes 0 (failTrace 1 0 3) = _
  rw [callTimes_failTrace]
  norm_num [List.range_succ]
have h3 : countWindow [(0 : ℚ), 1, 3] 0 = 3 := by
  simp only [countWindow, List.filter_cons, List.filter_nil]
  norm_num
refine ⟨rfl, ?_, ?_⟩
· rw [h2, h3]
· rw [h2, h3]
  omega

/-- Claim C8 (amended): the rate limiter is acquired once per conversion,
not once per API call, so retry attempts are not individually rate
limited: whenever every attempt of a conversion fails (no suggested
delays) and the backoff sleeps total less than 60 seconds, all
`maxRetries` call starts of that single conversion fall within the rolling
60-second window starting at time 0, exceeding every configured limit
`N < maxRetries`. -/
theorem rate_limiter_single_acquisition (outcomes : Nat → CallOutcome) (m : Nat) (b : ℚ)
    (errs : Nat → String) (N : Nat) (hm : 1 ≤ m)
    (hout : ∀ i, i < m → outcomes i = CallOutcome.failure (errs i))
    (hnd : ∀ i, i < m → suggestedDelay (errs i) = none)
    (hb : 0 ≤ b) (hw : b * (2 ^ (m - 1) - 1) < 60) (hN : N < m) :
    countWindow (callTimes 0 (convert_html_to_markdown outcomes m b).1) 0 = m
    ∧ ¬ countWindow (callTimes 0 (convert_html_to_markdown outcomes m b).1) 0 ≤ N := by
have hgo := convertGo_fail outcomes m b errs hout hnd m 0 (by omega) hm
have h1 : (convert_html_to_markdown outcomes m b).1 = Event.acquire :: failTrace b 0 m := by
  simp [convert_html_to_markdown, hgo]
have h2 : callTimes 0 (convert_html_to_markdown outcomes m b).1
    = (List.range m).map (fun i => (0 : ℚ) + b * (2 ^ (0 + i) - 2 ^ 0)) := by
  rw [h1]
  show callTimes 0 (failTrace b 0 m) = _
  exact callTimes_failTrace b m 0 0
have key : countWindow ((List.range m).map fun i => (0 : ℚ) + b * (2 ^ (0 + i) - 2 ^ 0)) 0 = m := by
  unfold countWindow
  rw [List.filter_eq_self.mpr ?all]
  · simp
  case all =>
    intro x hx
    obtain ⟨i, hi, rfl⟩ := List.mem_map.mp hx
    have hil : i < m := List.mem_range.mp hi
    have hpow : (2 : ℚ) ^ 0 ≤ 2 ^ (0 + i) :=
      pow_le_pow_right₀ (by norm_num) (Nat.zero_le (0 + i))
    have h20 : (0 : ℚ) ≤ b * (2 ^ (0 + i) - 2 ^ 0) :=
      mul_nonneg hb (by linarith)
    have hmono : (2 : ℚ) ^ (0 + i) ≤ 2 ^ (m - 1) :=
      pow_le_pow_right₀ (by norm_num) (by omega)
    have hup : b * (2 ^ (0 + i) - 2 ^ 0) ≤ b * (2 ^ (m - 1) - 1) := by
      apply mul_le_mul_of_nonneg_left _ hb
      have h01 : (2 : ℚ) ^ 0 = 1 := by norm_num
      linarith
    simp only [Bool.and_eq_true, decide_eq_true_eq]
    constructor
    · linarith
    · linarith
rw [h2, key]
exact ⟨rfl, by omega⟩

/-- Witness for C8 (amended): three failing attempts at base 1 second
against a configured limit of 1 call per minute. -/
theorem rate_limiter_single_acquisition_witness :
    countWindow (callTimes 0 (convert_html_to_markdown ocFail 3 1).1) 0 = 3
    ∧ ¬ countWindow (callTimes 0 (convert_html_to_markdown ocFail 3 1).1) 0 ≤ 1 :=
rate_limiter_single_acquisition ocFail 3 1 (fun _ => "boom") 1 (by omega)
  (fun _ _ => rfl) (fun _ _ => rfl) (by norm_num) (by norm_num) (by omega)

/-! ## Lemmas about result reordering -/

theorem lastAssoc_none {k : String} :
    ∀ (l : List (String × String)), (∀ w ∈ l, w.1 ≠ k) → lastAssoc k l = none := by
intro l
induction l with
| nil => intro _; rfl
| cons p rest ih =>
  intro hall
  cases p with
  | mk t c =>
    have hr := ih (fun w hw => hall w (List.mem_cons_of_mem _ hw))
    have ht : t ≠ k := by
      have := hall (t, c) (List.mem_cons_self _ _)
      simpa using this
    simp [lastAssoc, hr, ht]

theorem lastAssoc_all_eq {k : String} {v : String × String} (hv : v.1 = k) :
    ∀ (l : List (String × String)), v ∈ l → (∀ w ∈ l, w.1 = k → w = v) →
    lastAssoc k l = some v := by
intro l
induction l with
| nil => intro h _; simp at h
| cons p rest ih =>
  intro hmem hall
  cases p with
  | mk t c =>
    by_cases hr : v ∈ rest
    · have hrec := ih hr (fun w hw hwk => hall w (List.mem_cons_of_mem _ hw) hwk)
      simp [lastAssoc, hrec]
    · have hv2 : (t, c) = v := by
        rcases List.mem_cons.mp hmem with h1 | h1
        · exact h1.symm
        · exact absurd h1 hr
      have hnone : lastAssoc k rest = none := by
        apply lastAssoc_none
        intro w hw hwk
        have hwv : w = v := hall w (List.mem_cons_of_mem _ hw) hwk
        exact absurd (hwv ▸ hw) hr
      have ht : t = k := by
        rw [← hv, ← hv2]
      simp only [lastAssoc, hnone]
      rw [if_pos ht]
      exact congrArg some hv2

theorem lastAssoc_processed (files completed : List FileEntry) (ok : FileEntry → Bool)
    (content : String → String)
    (hinj : ∀ f ∈ files, ∀ g ∈ files, dTitle f = dTitle g → f = g)
    (hsub : ∀ g ∈ completed, g ∈ files ∧ ok g = true)
    (f : FileEntry) (hf : f ∈ files) :
    lastAssoc (dTitle f) (processedOf content completed)
      = if f ∈ completed then some (dTitle f, content f.path) else none := by
by_cases hfc : f ∈ completed
· rw [if_pos hfc]
  apply lastAssoc_all_eq (v := (dTitle f, content f.path)) rfl
  · exact List.mem_map.mpr ⟨f, hfc, rfl⟩
  · intro w hw hwk
    obtain ⟨g, hg, rfl⟩ := List.mem_map.mp hw
    have hgf : g = f := hinj g (hsub g hg).1 f hf hwk
    rw [hgf]
· rw [if_neg hfc]
  apply lastAssoc_none
  intro w hw
  obtain ⟨g, hg, rfl⟩ := List.mem_map.mp hw
  intro hwk
  have hgf : g = f := hinj g (hsub g hg).1 f hf hwk
  exact hfc (hgf ▸ hg)

theorem filterMap_if_eq_map_filter (l : List FileEntry) (p : FileEntry → Bool)
    (h : FileEntry → String × String) :
    (l.filterMap fun f => if p f = true then some (h f) else none)
      = (l.filter p).map h := by
induction l with
| nil => rfl
| cons f rest ih =>
  by_cases hp : p f = true
  · simp [List.filterMap_cons, List.filter_cons, hp, ih]
  · simp [List.filterMap_cons, List.filter_cons, hp, ih]

theorem reorder_eq (files completed : List FileEntry) (ok : FileEntry → Bool)
    (content : String → String)
    (hinj : ∀ f ∈ files, ∀ g ∈ files, dTitle f = dTitle g → f = g)
    (hperm : completed.Perm (files.filter ok)) :
    reorder files (processedOf content completed)
      = (files.filter ok).map (fun f => (dTitle f, content f.path)) := by
have hsub : ∀ g ∈ completed, g ∈ files ∧ ok g = true := by
  intro g hg
  have hmem := hperm.mem_iff.mp hg
  exact ⟨(List.mem_filter.mp hmem).1, (List.mem_filter.mp hmem).2⟩
have hmemc : ∀ f ∈ files, (f ∈ completed ↔ ok f = true) := by
  intro f hf
  rw [hperm.mem_iff, List.mem_filter]
  constructor
  · rintro ⟨_, h⟩
    exact h
  · intro h
    exact ⟨hf, h⟩
unfold reorder
rw [List.filterMap_congr (g := fun f => if ok f = true then some (dTitle f, content f.path) else none) ?point]
· exact filterMap_if_eq_map_filter files ok _
case point =>
  intro f hf
  rw [lastAssoc_processed files completed ok content hinj hsub f hf]
  have h2 : (f ∈ completed) = (ok f = true) := propext (hmemc f hf)
  simp only [h2]

/-! ## Claim C1: output order equals discovery order -/

/-- Counterexample for C1 as stated (for *every* run): when two discovered
files share a derived title (`a_b.html` at t1 with body `X`, `a b.html` at
t2 with body `Y`, both succeeding), the dictionary keeps the
last-completed result, so the output does not list the files' own results
in discovery order — and it even depends on the completion order, the very
thing the claim rules out. -/
theorem output_order_counterexample :
    reorder (discover_html_files [fColl1, fColl2]) (processedOf contentColl [fColl2, fColl1])
      = [("a b", "X"), ("a b", "X")]
    ∧ reorder (discover_html_files [fColl1, fColl2]) (processedOf contentColl [fColl2, fColl1])
      ≠ [(dTitle fColl1, contentColl fColl1.path), (dTitle fColl2, contentColl fColl2.path)]
    ∧ reorder (discover_html_files [fColl1, fColl2]) (processedOf contentColl [fColl2, fColl1])
      ≠ reorder (discover_html_files [fColl1, fColl2])
          (processedOf contentColl [fColl1, fColl2]) := by
refine ⟨by decide, by decide, by decide⟩

/-- Claim C1 (amended): provided the discovered files carry
pairwise-distinct derived titles, whatever order the successful
conversions complete in (any permutation of the successes), the reordered
result sequence equals the discovery-ordered (mtime-ascending) successes —
and any two completion orders produce the same output.  Completion order
never influences the written output. -/
theorem output_order_is_discovery_order (raw completed completed2 : List FileEntry)
    (ok : FileEntry → Bool) (content : String → String)
    (hinj : ∀ f ∈ discover_html_files raw, ∀ g ∈ discover_html_files raw,
      dTitle f = dTitle g → f = g)
    (hperm : completed.Perm ((discover_html_files raw).filter ok))
    (hperm2 : completed2.Perm completed) :
    reorder (discover_html_files raw) (processedOf content completed)
      = ((discover_html_files raw).filter ok).map (fun f => (dTitle f, content f.path))
    ∧ reorder (discover_html_files raw) (processedOf content completed2)
      = reorder (discover_html_files raw) (processedOf content completed) := by
have h1 := reorder_eq (discover_html_files raw) completed ok content hinj hperm
have h2 := reorder_eq (discover_html_files raw) completed2 ok content hinj (hperm2.trans hperm)
exact ⟨h1, h2.trans h1.symm⟩

/-- Witness for C1: files with mtimes 1 < 2 < 3 listed out of order,
completing in the order t3, t1, t2 (and, for the second conjunct, in a
further different order): the output is in mtime order either way. -/
theorem output_order_is_discovery_order_witness :
    reorder (discover_html_files rawC1)
        (processedOf contentC1 [⟨"c.html", 3⟩, ⟨"a.html", 1⟩, ⟨"b.html", 2⟩])
      = ((discover_html_files rawC1).filter okAll).map (fun f => (dTitle f, contentC1 f.path))
    ∧ reorder (discover_html_files rawC1)
        (processedOf contentC1 [⟨"b.html", 2⟩, ⟨"c.html", 3⟩, ⟨"a.html", 1⟩])
      = reorder (discover_html_files rawC1)
          (processedOf contentC1 [⟨"c.html", 3⟩, ⟨"a.html", 1⟩, ⟨"b.html", 2⟩]) :=
output_order_is_discovery_order rawC1
  [⟨"c.html", 3⟩, ⟨"a.html", 1⟩, ⟨"b.html", 2⟩]
  [⟨"b.html", 2⟩, ⟨"c.html", 3⟩, ⟨"a.html", 1⟩]
  okAll contentC1 (by decide) (by decide) (by decide)

/-! ## Claim C2: matching results back by derived title -/

/-- Counterexample for C2 as stated: `a_b.html` and `a b.html` both derive
the title `a b`; with both conversions succeeding (bodies `X` and `Y`,
completing in submission order), the final ordered sequence holds `Y`
twice and `a_b.html`'s own result `X` nowhere — a duplicated,
cross-matched entry rather than one entry per file. -/
theorem title_collision_counterexample :
    reorder (discover_html_files [fColl1, fColl2]) (processedOf contentColl [fColl1, fColl2])
      = [("a b", "Y"), ("a b", "Y")]
    ∧ ("a b", "X") ∉ reorder (discover_html_files [fColl1, fColl2])
        (processedOf contentColl [fColl1, fColl2])
    ∧ contentColl fColl1.path = "X" := by
refine ⟨by decide, by decide, rfl⟩

/-- Claim C2 (amended): provided the derived titles of the discovered
files are pairwise distinct (which the source does not enforce), every
successfully converted file's result is matched back by derived-title
equality, and the final ordered sequence contains exactly one entry per
successfully converted file, carrying that file's own result. -/
theorem reorder_exact_match (raw completed : List FileEntry)
    (ok : FileEntry → Bool) (content : String → String)
    (hnodup : (discover_html_files raw).Nodup)
    (hinj : ∀ f ∈ discover_html_files raw, ∀ g ∈ discover_html_files raw,
      dTitle f = dTitle g → f = g)
    (hperm : completed.Perm ((discover_html_files raw).filter ok)) :
    reorder (discover_html_files raw) (processedOf content completed)
      = ((discover_html_files raw).filter ok).map (fun f => (dTitle f, content f.path))
    ∧ (reorder (discover_html_files raw) (processedOf content completed)).Nodup
    ∧ ∀ f ∈ (discover_html_files raw).filter ok,
        (dTitle f, content f.path)
          ∈ reorder (discover_html_files raw) (processedOf content completed) := by
have h1 := reorder_eq (discover_html_files raw) completed ok content hinj hperm
refine ⟨h1, ?_, ?_⟩
· rw [h1]
  apply List.Nodup.map_on
  · intro x hx y hy hxy
    have hts : dTitle x = dTitle y := congrArg Prod.fst hxy
    exact hinj x (List.mem_filter.mp hx).1 y (List.mem_filter.mp hy).1 hts
  · exact hnodup.filter ok
· intro f hf
  rw [h1]
  exact List.mem_map.mpr ⟨f, hf, rfl⟩

/-- Witness for C2 (amended): two collision-free files completing in
reverse order; each file's own result appears exactly once. -/
theorem reorder_exact_match_witness :
    reorder (discover_html_files rawC2)
        (processedOf contentC1 [⟨"y.html", 2⟩, ⟨"x.html", 1⟩])
      = ((discover_html_files rawC2).filter okAll).map (fun f => (dTitle f, contentC1 f.path))
    ∧ (reorder (discover_html_files rawC2)
        (processedOf contentC1 [⟨"y.html", 2⟩, ⟨"x.html", 1⟩])).Nodup
    ∧ ∀ f ∈ (discover_html_files rawC2).filter okAll,
        (dTitle f, contentC1 f.path)
          ∈ reorder (discover_html_files rawC2)
              (processedOf contentC1 [⟨"y.html", 2⟩, ⟨"x.html", 1⟩]) :=
reorder_exact_match rawC2 [⟨"y.html", 2⟩, ⟨"x.html", 1⟩] okAll contentC1
  (by decide) (by decide) (by decide)

/-! ## Claim C6: a file failing every retry -/

/-- Counterexample for C6 as stated: with the title-colliding pair
(`a_b.html` failing every retry, `a b.html` succeeding with body `Y`), the
failed file's derived title still matches the survivor's dictionary entry,
so the run reports `found 2, processed 2` even though only one file
succeeded — the reported processed count does not exclude the failed
file, and the failed file's discovery slot contributes a (duplicated)
section to the output. -/
theorem failed_file_count_counterexample :
    convert_directory_model [fColl1, fColl2] "" "output.md" false 0 [] [fColl2] contentColl
        "---" true
      = DirOutcome.finished "output.md"
          (generate_output [("a b", "Y"), ("a b", "Y")] "---" true) 2 2
    ∧ ([fColl2] : List FileEntry).length = 1
    ∧ (2 : Nat) ≠ 1 := by
refine ⟨by decide, rfl, by omega⟩

/-- Claim C6 (amended): provided the derived titles of the discovered
files are pairwise distinct, a file whose conversion fails on every retry
is absent from the written output (no section carries its title), the run
still finishes and every sibling success appears, and the reported
processed count (the number of successes) excludes the failed file while
the found count (all discovered files) includes it, so processed is
strictly below found. -/
theorem failed_file_excluded (raw completed : List FileEntry)
    (ok : FileEntry → Bool) (content : String → String) (outDir outName : String)
    (ts : Nat) (inputs : List String) (sep : String) (headers : Bool) (f : FileEntry)
    (hinj : ∀ x ∈ discover_html_files raw, ∀ g ∈ discover_html_files raw,
      dTitle x = dTitle g → x = g)
    (hperm : completed.Perm ((discover_html_files raw).filter ok))
    (hf : f ∈ discover_html_files raw) (hfail : ok f = false) :
    convert_directory_model raw outDir outName false ts inputs completed content sep headers
      = DirOutcome.finished (joinPath outDir outName)
          (generate_output (((discover_html_files raw).filter ok).map
            (fun g => (dTitle g, content g.path))) sep headers)
          (discover_html_files raw).length
          ((discover_html_files raw).filter ok).length
    ∧ (∀ e ∈ ((discover_html_files raw).filter ok).map (fun g => (dTitle g, content g.path)),
        e.1 ≠ dTitle f)
    ∧ ((discover_html_files raw).filter ok).length < (discover_html_files raw).length
    ∧ ∀ g ∈ discover_html_files raw, ok g = true →
        (dTitle g, content g.path) ∈ ((discover_html_files raw).filter ok).map
          (fun g => (dTitle g, content g.path)) := by
have hre := reorder_eq (discover_html_files raw) completed ok content hinj hperm
refine ⟨?_, ?_, ?_, ?_⟩
· unfold convert_directory_model
  cases hd : discover_html_files raw with
  | nil =>
    rw [hd] at hf
    simp at hf
  | cons x xs =>
    rw [hd] at hre
    simp only [check_output_file, if_false, Bool.false_eq_true]
    rw [hre, List.length_map]
· intro e he
  obtain ⟨g, hg, rfl⟩ := List.mem_map.mp he
  intro hq
  have hgf : g = f := hinj g (List.mem_filter.mp hg).1 f hf hq
  have h2 := (List.mem_filter.mp hg).2
  rw [hgf, hfail] at h2
  simp at h2
· apply List.length_filter_lt_length_iff_exists.mpr
  exact ⟨f, hf, by simp [hfail]⟩
· intro g hg hok
  exact List.mem_map.mpr ⟨g, List.mem_filter.mpr ⟨hg, hok⟩, rfl⟩

/-- Witness for C6 (amended): `x.html` fails every retry, `y.html`
succeeds; the run finishes with found 2, processed 1 and no section
carrying `x`'s title. -/
theorem failed_file_excluded_witness :
    convert_directory_model rawC2 "" "out.md" false 0 [] [⟨"y.html", 2⟩] contentC1 "---" true
      = DirOutcome.finished (joinPath "" "out.md")
          (generate_output (((discover_html_files rawC2).filter okC6).map
            (fun g => (dTitle g, contentC1 g.path))) "---" true)
          (discover_html_files rawC2).length
          ((discover_html_files rawC2).filter okC6).length
    ∧ (∀ e ∈ ((discover_html_files rawC2).filter okC6).map
          (fun g => (dTitle g, contentC1 g.path)),
        e.1 ≠ dTitle (⟨"x.html", 1⟩ : FileEntry))
    ∧ ((discover_html_files rawC2).filter okC6).length < (discover_html_files rawC2).length
    ∧ ∀ g ∈ discover_html_files rawC2, okC6 g = true →
        (dTitle g, contentC1 g.path) ∈ ((discover_html_files rawC2).filter okC6).map
          (fun g => (dTitle g, contentC1 g.path)) :=
failed_file_excluded rawC2 [⟨"y.html", 2⟩] okC6 contentC1 "" "out.md" 0 [] "---" true
  ⟨"x.html", 1⟩ (by decide) (by decide) (by decide) (by decide)

/-! ## Claim C9: cancelling at the overwrite prompt -/

/-- Counterexample for C9 as stated: when the output file exists and the
user enters `3` at the prompt, `convert_directory` returns normally
(`Operation cancelled.`), `main` falls through, and the process exits 0
— not 1. -/
theorem cancel_exit_code_counterexample :
    convert_directory_model rawC9 "site" "output.md" true 0 ["3"] [] (fun _ => "") "---" true
      = DirOutcome.cancelled
    ∧ main_exit_code DirOutcome.cancelled = 0
    ∧ main_exit_code (convert_directory_model rawC9 "site" "output.md" true 0 ["3"] []
        (fun _ => "") "---" true) ≠ 1 := by
refine ⟨by decide, rfl, by decide⟩

/-- Claim C9 (amended): when the resolved output path already exists and
the user's replies lead the prompt loop to choice 3, the run ends as a
clean cancellation and the program terminates normally with exit code 0
(cancellation is a normal exit, not an error). -/
theorem cancel_is_clean_exit (raw : List FileEntry) (outDir outName : String) (ts : Nat)
    (inputs : List String) (completed : List FileEntry) (content : String → String)
    (sep : String) (headers : Bool) (f : FileEntry)
    (hf : f ∈ discover_html_files raw)
    (hcancel : promptLoop (joinPath outDir outName) ts inputs = some none) :
    convert_directory_model raw outDir outName true ts inputs completed content sep headers
      = DirOutcome.cancelled
    ∧ main_exit_code (convert_directory_model raw outDir outName true ts inputs completed
        content sep headers) = 0 := by
have h1 : convert_directory_model raw outDir outName true ts inputs completed content sep headers
    = DirOutcome.cancelled := by
  unfold convert_directory_model
  cases hd : discover_html_files raw with
  | nil =>
    rw [hd] at hf
    simp at hf
  | cons x xs =>
    simp only [check_output_file, if_true]
    rw [hcancel]
refine ⟨h1, ?_⟩
rw [h1]
rfl

/-- Witness for C9 (amended): one discovered file, an invalid reply
followed by `3`. -/
theorem cancel_is_clean_exit_witness :
    convert_directory_model rawC9 "site" "output.md" true 0 ["7", "3"] [] (fun _ => "")
        "---" true
      = DirOutcome.cancelled
    ∧ main_exit_code (convert_directory_model rawC9 "site" "output.md" true 0 ["7", "3"] []
        (fun _ => "") "---" true) = 0 :=
cancel_is_clean_exit rawC9 "site" "output.md" 0 ["7", "3"] [] (fun _ => "") "---" true
  ⟨"doc.html", 5⟩ (by decide) (by decide)

end HTML2MD
